import Mathlib

/-!
# Verification of the JungAI archetype decision core

Shallow embedding of the decision engine, n-gram lexical matcher and rewrite
generator of `model/serve_api.py` (together with the static lexicon of
`model/lexicon.py`).  Python floats are modelled as exact rationals (`ℚ`);
Python strings as Lean `String` (a wrapped `List Char`); Python dicts with
string keys as association lists in insertion order.  `max(d, key=f)` is
modelled by a left fold keeping the first maximum, exactly as CPython does.
`sorted(..., reverse=True)` is stable; stability is modelled by sorting the
enumerated list by the total order (value descending, original index
ascending).  Regular-expression character classes are modelled over ASCII
whitespace, which covers every string the lexicon and the spec mention.
-/

namespace JungAI

/-- ASCII whitespace, the characters matched by `\s` in the source's regexes
(restricted to ASCII, which is all the lexicon uses). -/
def isWs (c : Char) : Bool :=
  c = ' ' || c = '\t' || c = '\n' || c = '\r' || c = '\x0b' || c = '\x0c'

def notWs (c : Char) : Bool := !(isWs c)

/-- Python `str.split()` with no separator: split on runs of whitespace,
dropping empty chunks.  `acc` holds the current token, reversed. -/
def pySplitAux : List Char → List Char → List (List Char)
  | [], acc => if acc.isEmpty then [] else [acc.reverse]
  | c :: cs, acc =>
    if isWs c then
      if acc.isEmpty then pySplitAux cs [] else acc.reverse :: pySplitAux cs []
    else
      pySplitAux cs (c :: acc)

def pySplit (l : List Char) : List (List Char) := pySplitAux l []

/-- Python `" ".join(tokens)`. -/
def joinSp : List (List Char) → List Char
  | [] => []
  | [t] => t
  | t :: ts => t ++ ' ' :: joinSp ts

/-- The characters `[-–—_/]` that `_norm_for_match` turns into spaces. -/
def isDashChar (c : Char) : Bool :=
  c = '-' || c = '–' || c = '—' || c = '_' || c = '/'

def isLowerAlnum (c : Char) : Bool :=
  ('a' ≤ c && c ≤ 'z') || ('0' ≤ c && c ≤ '9')

/-- `_norm_for_match` (serve_api.py:59-64): lower-case, dashes to spaces,
drop other punctuation (replaced by space), collapse whitespace and strip.
The final `re.sub(r"\s+", " ", s).strip()` is exactly "join the
whitespace-separated tokens with single spaces". -/
def norm_for_match (s : String) : String :=
  let s1 := s.toList.map Char.toLower
  let s2 := s1.map (fun c => if isDashChar c then ' ' else c)
  let s3 := s2.map (fun c => if isLowerAlnum c || isWs c then c else ' ')
  String.mk (joinSp (pySplit s3))

/-- The character class kept by `normalize_text`'s second regex:
`[A-Za-z0-9\s\-’'’]`. -/
def isDisplayKeep (c : Char) : Bool :=
  ('A' ≤ c && c ≤ 'Z') || ('a' ≤ c && c ≤ 'z') || ('0' ≤ c && c ≤ '9') ||
    isWs c || c = '-' || c = '’' || c = '\''

/-- `re.sub(r"http\S+", " ", s)`: every occurrence of the literal `http`
followed by at least one non-whitespace character is replaced (together with
the maximal following non-whitespace run) by a single space, scanning left to
right. -/
def stripUrlsF : Nat → List Char → List Char
  | 0, _ => []
  | _ + 1, [] => []
  | fuel + 1, c :: cs =>
    if c = 'h' ∧ cs.take 3 = ['t', 't', 'p'] ∧ (cs.drop 3).takeWhile notWs ≠ [] then
      ' ' :: stripUrlsF fuel ((cs.drop 3).dropWhile notWs)
    else
      c :: stripUrlsF fuel cs

/-- The rest of the scan is never longer than the fuel, so the fuelled scan
never hits the `0` case. -/
def stripUrls (l : List Char) : List Char := stripUrlsF l.length l

/-- `normalize_text` (serve_api.py:52-56): strip URLs, strip characters
outside `[A-Za-z0-9\s\-’'’]` (replaced by space), collapse whitespace, trim. -/
def normalize_text (s : String) : String :=
  let s1 := stripUrls s.toList
  let s2 := s1.map (fun c => if isDisplayKeep c then c else ' ')
  String.mk (joinSp (pySplit s2))

/-- `_ngram_set` (serve_api.py:66-71): the set of all space-joined contiguous
token windows of length 1, 2 and 3.  Modelled as a list; only membership is
ever used. -/
def ngramsN (toks : List (List Char)) (n : Nat) : List String :=
  (List.range (toks.length + 1 - n)).map (fun i => String.mk (joinSp ((toks.drop i).take n)))

def ngram_set (text : String) : List String :=
  let toks := pySplit text.toList
  ngramsN toks 1 ++ ngramsN toks 2 ++ ngramsN toks 3

/-- One archetype definition from `model/lexicon.py`: keyword list, word
replacements, rewrite templates and slot-filler lists. -/
structure Lexicon where
  keywords : List String := []
  replace : List (String × String) := []
  templates : List String := []
  verbs : List String := []
  verbs2 : List String := []
  verbs3 : List String := []
  benefits : List String := []
deriving DecidableEq

/-- `REBEL` (lexicon.py:3-19). -/
def REBEL : Lexicon where
  keywords := ["break", "break rules", "rule breaking", "rule-breaking", "rebel", "outlaw",
    "defy", "defiant", "disrupt", "nonconformist", "unapologetic", "maverick",
    "against the grain", "anarchy", "riot", "unbound", "bold", "independent", "freedom",
    "smash", "refuse", "resist", "revolt"]
  replace := [("innovative", "rule-breaking"), ("features", "firepower"),
    ("solutions", "weapons"), ("technology", "anarchy-grade tech")]
  templates := ["We {verb} the rules so you can {benefit}.",
    "No permission needed. {brand} {verb2} limits.",
    "{brand} is for the ones who {verb3} conformity."]
  verbs := ["break", "defy", "smash"]
  verbs2 := ["obliterates", "wrecks"]
  verbs3 := ["refuse", "destroy"]
  benefits := ["move free", "own your path"]

/-- `CAREGIVER` (lexicon.py:21-35). -/
def CAREGIVER : Lexicon where
  keywords := ["care", "caring", "nurture", "nurturing", "protect", "protection", "support",
    "supportive", "safe", "safety", "compassion", "compassionate", "empathy", "gentle",
    "warm", "warmth", "embrace", "family", "trust", "wellbeing", "well being", "well-being",
    "shield", "comfort", "soothe", "reassure", "healing", "kindness", "help", "tender",
    "listen"]
  replace := [("features", "care standards"), ("technology", "care tech")]
  templates := ["{brand} is here to {verb} you—every step.",
    "Because your {benefit} deserves gentle, proven care."]
  verbs := ["support", "protect"]
  benefits := ["family", "peace of mind"]

/-- `EXPLORER` (lexicon.py:37-50). -/
def EXPLORER : Lexicon where
  keywords := ["explore", "discover", "adventure", "freedom", "wander", "roam", "journey",
    "trail", "frontier", "off road", "off-road", "beyond", "horizon", "wild", "map", "path",
    "route", "expedition", "uncharted", "out there", "find your own way"]
  replace := [("features", "trail tools"), ("technology", "navigation tech")]
  templates := ["Go {verb} the map—{brand} equips your {benefit}.",
    "Every path is a story. {brand} gets you there."]
  verbs := ["beyond", "off"]
  benefits := ["next route", "bold journey"]

/-- `ARCHETYPES` (lexicon.py:52), an insertion-ordered dict. -/
def ARCHETYPES : List (String × Lexicon) :=
  [("Rebel", REBEL), ("Caregiver", CAREGIVER), ("Explorer", EXPLORER)]

/-- Python `str.lower()` (ASCII). -/
def pyLower (s : String) : String := String.mk (s.toList.map Char.toLower)

/-- `analyze_patterns_all` (serve_api.py:73-87): for every archetype, the
keywords (in declaration order, lower-cased) whose match-normalized form is a
member of the 1-3-gram set of the match-normalized text. -/
def analyze_patterns_all (text : String) : List (String × List String) :=
  let grams := ngram_set (norm_for_match text)
  ARCHETYPES.map (fun p =>
    (p.1, (p.2.keywords.filter (fun kw => decide (norm_for_match kw ∈ grams))).map pyLower))

/-- Python `str.capitalize()`: first character upper-cased, the rest
lower-cased. -/
def capitalize (s : String) : String :=
  match s.toList with
  | [] => s
  | c :: cs => String.mk (c.toUpper :: cs.map Char.toLower)

/-- The replacement loop of `rewrite` (serve_api.py:96-97): for each pair, a
plain `str.replace` followed by the capitalized variant, in mapping order. -/
def applyReplace (text : String) (reps : List (String × String)) : String :=
  reps.foldl (fun t kv => (t.replace kv.1 kv.2).replace (capitalize kv.1) (capitalize kv.2)) text

/-- `rewrite` (serve_api.py:89-115).  The template branch calls
`random.choice`; that nondeterminism is modelled by the `render` argument,
which stands for one random template rendering from the archetype's lexicon
and the brand (the replaced text is unused on that branch in the source). -/
def rewrite (render : Lexicon → String → String) (text target brand : String) : String :=
  let lex := (ARCHETYPES.lookup target).getD {}
  let t := applyReplace text lex.replace
  if lex.templates.isEmpty then
    let n := normalize_text t
    if n.length > 120 then n.take 120 ++ "..." else n
  else
    render lex brand

/-- Python `round(x, 4)` on a real value: round half to even at the fourth
decimal place.  Floats are modelled as exact rationals. -/
def roundHalfEven (q : ℚ) : ℤ :=
  if q - ⌊q⌋ < 1/2 then ⌊q⌋
  else if 1/2 < q - ⌊q⌋ then ⌊q⌋ + 1
  else if ⌊q⌋ % 2 = 0 then ⌊q⌋ else ⌊q⌋ + 1

def round4 (q : ℚ) : ℚ := (roundHalfEven (q * 10000) : ℚ) / 10000

/-- CPython `max(iterable, key=f)`: left scan keeping the current maximum,
replacing it only on a strictly larger key, so the first maximum wins. -/
def pyMaxAux {α β : Type} [LinearOrder β] (f : α → β) (best : α) : List α → α
  | [] => best
  | x :: xs => pyMaxAux f (if f best < f x then x else best) xs

def pyMaxBy {α β : Type} [LinearOrder β] (f : α → β) : List α → Option α
  | [] => none
  | x :: xs => some (pyMaxAux f x xs)

/-- The total order modelling Python's stable `sorted(scores.items(),
key=value, reverse=True)` on the enumerated item list: value descending,
original (insertion/label) position ascending. -/
def descRel (a b : ℕ × (String × ℚ)) : Prop :=
  b.2.2 < a.2.2 ∨ (a.2.2 = b.2.2 ∧ a.1 ≤ b.1)

instance : DecidableRel descRel := fun a b =>
  inferInstanceAs (Decidable (b.2.2 < a.2.2 ∨ (a.2.2 = b.2.2 ∧ a.1 ≤ b.1)))

instance : IsTotal (ℕ × (String × ℚ)) descRel where
  total a b := by
    rcases lt_trichotomy a.2.2 b.2.2 with h | h | h
    · exact Or.inr (Or.inl h)
    · rcases Nat.le_total a.1 b.1 with h' | h'
      · exact Or.inl (Or.inr ⟨h, h'⟩)
      · exact Or.inr (Or.inr ⟨h.symm, h'⟩)
    · exact Or.inl (Or.inl h)

instance : IsTrans (ℕ × (String × ℚ)) descRel where
  trans a b c hab hbc := by
    rcases hab with h1 | ⟨h1, h1'⟩ <;> rcases hbc with h2 | ⟨h2, h2'⟩
    · exact Or.inl (h2.trans h1)
    · exact Or.inl (h2 ▸ h1)
    · exact Or.inl (h1 ▸ h2)
    · exact Or.inr ⟨h1.trans h2, h1'.trans h2'⟩

/-- Python `sorted(items, key=value, reverse=True)` (stable). -/
def pySortDesc (l : List (String × ℚ)) : List (String × ℚ) :=
  ((l.enum).insertionSort descRel).map Prod.snd

/-- `found_all.get(k, [])` / the match list of one archetype. -/
def foundFor (foundAll : List (String × List String)) (k : String) : List String :=
  (foundAll.lookup k).getD []

/-- `lex_hits.get(k, 0)` (serve_api.py:157,165). -/
def lexHits (foundAll : List (String × List String)) (k : String) : ℕ :=
  (foundFor foundAll k).length

/-- `scores.get(k, 0.0)` / `scores[k]`. -/
def scoreOf (scores : List (String × ℚ)) (k : String) : ℚ :=
  (scores.lookup k).getD 0

/-- `ARCHETYPES.get(k, {})`. -/
def lexFor (k : String) : Lexicon := (ARCHETYPES.lookup k).getD {}

/-- Steps 3-4 of `classify` (serve_api.py:154-169): the lexicon-aware
override.  `lex_label` is the first archetype with the most matches;
the nested Python conditions (`if lex_label and lex_label != top:` then
`if strong and (margin or lowc):`) are flattened into one conjunction;
`lex_label`'s Python truthiness check makes an empty-string key falsy. -/
def decideOverride (scores : List (String × ℚ)) (foundAll : List (String × List String))
    (top : String) (conf : ℚ) : String × ℚ :=
  match pyMaxBy (fun kv => kv.2.length) foundAll with
  | none => (top, conf)
  | some lp =>
    if lp.1 ≠ "" ∧ lp.1 ≠ top ∧ 2 ≤ lp.2.length ∧
        (lexHits foundAll top + 2 ≤ lp.2.length ∨ conf < 55/100) then
      (lp.1, round4 (52/100 + 48/100 * scoreOf scores lp.1))
    else
      (top, conf)

/-- The JSON fields of `classify`'s response that do not come from `rewrite`
(serve_api.py:186-198; the two fixed `suggestions` strings are derived from
`patterns_missing` and carry no extra state). -/
structure ClassifyOut where
  label : String
  confidence : ℚ
  scores : List (String × ℚ)
  patterns_found : List String
  patterns_missing : List String
  patterns_found_all : List (String × List String)
deriving DecidableEq

/-- `classify` (serve_api.py:134-198) with the classifier adapter inlined:
`labels` is `model.classes_`, `probs` the probability row for the normalized
text, and `foundAll` the matcher output.  `none` models the `ValueError`
CPython's `max` raises on an empty score dict. -/
def classifyWith (labels : List String) (probs : List ℚ)
    (foundAll : List (String × List String)) : Option ClassifyOut :=
  let scores := labels.zip probs
  match pyMaxBy (fun kv => kv.2) scores with
  | none => none
  | some tp =>
    let top0 := tp.1
    let conf0 := scoreOf scores top0
    let tc := decideOverride scores foundAll top0 conf0
    let found_top := foundFor foundAll tc.1
    let all_kws := (lexFor tc.1).keywords.map pyLower
    let missing := (all_kws.filter (fun w => decide (w ∉ found_top))).take 10
    some
      { label := tc.1
        confidence := round4 tc.2
        scores := ((pySortDesc scores).take 3).map (fun kv => (kv.1, round4 kv.2))
        patterns_found := found_top
        patterns_missing := missing
        patterns_found_all := foundAll }

/-- The full pipeline for one request: display-normalize the text, run the
matcher on it, fuse with the classifier scores. -/
def classify (labels : List String) (probs : List ℚ) (rawText : String) : Option ClassifyOut :=
  classifyWith labels probs (analyze_patterns_all (normalize_text rawText))

/-- The response including the `example_rewrite` field, which calls `rewrite`
on the raw text and the final label (serve_api.py:181). -/
def classifyResponse (render : Lexicon → String → String) (labels : List String)
    (probs : List ℚ) (rawText : String) : Option (ClassifyOut × String) :=
  (classify labels probs rawText).map
    (fun r => (r, rewrite render rawText r.label ("Your brand")))

/-! ## Helper lemmas -/

theorem pyMaxAux_mem {α β : Type} [LinearOrder β] (f : α → β) :
    ∀ (l : List α) (b : α), pyMaxAux f b l = b ∨ pyMaxAux f b l ∈ l := by
  intro l
  induction l with
  | nil => intro b; exact Or.inl rfl
  | cons x xs ih =>
    intro b
    rw [pyMaxAux]
    rcases ih (if f b < f x then x else b) with h | h
    · rw [h]
      split
      · exact Or.inr (List.mem_cons_self _ _)
      · exact Or.inl rfl
    · exact Or.inr (List.mem_cons_of_mem _ h)

theorem pyMaxBy_eq_some {α β : Type} [LinearOrder β] (f : α → β) (l : List α) (h : l ≠ []) :
    ∃ a, pyMaxBy f l = some a ∧ a ∈ l := by
  match l, h with
  | x :: xs, _ =>
    refine ⟨pyMaxAux f x xs, rfl, ?_⟩
    rcases pyMaxAux_mem f xs x with h' | h'
    · rw [h']; exact List.mem_cons_self _ _
    · exact List.mem_cons_of_mem _ h'

theorem pyMaxBy_mem {α β : Type} [LinearOrder β] {f : α → β} {l : List α} {a : α}
    (h : pyMaxBy f l = some a) : a ∈ l := by
  match l, h with
  | x :: xs, h =>
    obtain ⟨b, hb, hmem⟩ := pyMaxBy_eq_some f (x :: xs) (by simp)
    rw [hb] at h
    cases h
    exact hmem

theorem decideOverride_unfold (scores : List (String × ℚ))
    (foundAll : List (String × List String)) (top : String) (conf : ℚ)
    (lp : String × List String)
    (hlp : pyMaxBy (fun kv => kv.2.length) foundAll = some lp) :
    decideOverride scores foundAll top conf =
      if lp.1 ≠ "" ∧ lp.1 ≠ top ∧ 2 ≤ lp.2.length ∧
          (lexHits foundAll top + 2 ≤ lp.2.length ∨ conf < 55/100) then
        (lp.1, round4 (52/100 + 48/100 * scoreOf scores lp.1))
      else (top, conf) := by
  unfold decideOverride
  rw [hlp]

theorem classifyWith_unfold (labels : List String) (probs : List ℚ)
    (foundAll : List (String × List String)) (tp : String × ℚ)
    (htp : pyMaxBy (fun kv => kv.2) (labels.zip probs) = some tp) :
    classifyWith labels probs foundAll = some
      { label := (decideOverride (labels.zip probs) foundAll tp.1
            (scoreOf (labels.zip probs) tp.1)).1
        confidence := round4 (decideOverride (labels.zip probs) foundAll tp.1
            (scoreOf (labels.zip probs) tp.1)).2
        scores := ((pySortDesc (labels.zip probs)).take 3).map (fun kv => (kv.1, round4 kv.2))
        patterns_found := foundFor foundAll (decideOverride (labels.zip probs) foundAll tp.1
            (scoreOf (labels.zip probs) tp.1)).1
        patterns_missing := (((lexFor (decideOverride (labels.zip probs) foundAll tp.1
            (scoreOf (labels.zip probs) tp.1)).1).keywords.map pyLower).filter
            (fun w => decide (w ∉ foundFor foundAll (decideOverride (labels.zip probs) foundAll
              tp.1 (scoreOf (labels.zip probs) tp.1)).1))).take 10
        patterns_found_all := foundAll } := by
  simp only [classifyWith, htp]

theorem zip_ne_nil_of (labels : List String) (probs : List ℚ)
    (hne : labels ≠ []) (hlen : probs.length = labels.length) :
    labels.zip probs ≠ [] := by
  intro h
  have h1 : (labels.zip probs).length = 0 := by rw [h]; rfl
  rw [List.length_zip, hlen, Nat.min_self] at h1
  exact hne (List.length_eq_zero.mp h1)

theorem floor_le_roundHalfEven (q : ℚ) : ⌊q⌋ ≤ roundHalfEven q := by
  unfold roundHalfEven
  split_ifs <;> omega

theorem roundHalfEven_le_floor_add_one (q : ℚ) : roundHalfEven q ≤ ⌊q⌋ + 1 := by
  unfold roundHalfEven
  split_ifs <;> omega

theorem roundHalfEven_intCast (n : ℤ) : roundHalfEven (n : ℚ) = n := by
  unfold roundHalfEven
  rw [Int.floor_intCast]
  simp

theorem roundHalfEven_mono {a b : ℚ} (h : a ≤ b) : roundHalfEven a ≤ roundHalfEven b := by
  have hf : ⌊a⌋ ≤ ⌊b⌋ := Int.floor_le_floor h
  rcases lt_or_eq_of_le hf with hlt | heq
  · have h1 := roundHalfEven_le_floor_add_one a
    have h2 := floor_le_roundHalfEven b
    omega
  · have hfr : a - (⌊a⌋ : ℚ) ≤ b - (⌊b⌋ : ℚ) := by
      rw [← heq]
      linarith
    unfold roundHalfEven
    rw [← heq] at hfr ⊢
    split_ifs <;> first | omega | linarith

theorem round4_mono {a b : ℚ} (h : a ≤ b) : round4 a ≤ round4 b := by
  unfold round4
  have h1 : roundHalfEven (a * 10000) ≤ roundHalfEven (b * 10000) :=
    roundHalfEven_mono (by linarith)
  have h2 : (roundHalfEven (a * 10000) : ℚ) ≤ (roundHalfEven (b * 10000) : ℚ) := by
    exact_mod_cast h1
  linarith

theorem round4_idem (q : ℚ) : round4 (round4 q) = round4 q := by
  unfold round4
  rw [div_mul_cancel₀ _ (by norm_num : (10000 : ℚ) ≠ 0), roundHalfEven_intCast]

theorem round4_ge_of_ge {q : ℚ} (h : 52/100 ≤ q) : 52/100 ≤ round4 q := by
  have h1 : (5200 : ℤ) ≤ ⌊q * 10000⌋ := by
    rw [Int.le_floor]
    push_cast
    linarith
  have h2 := floor_le_roundHalfEven (q * 10000)
  have h3 : (5200 : ℚ) ≤ (roundHalfEven (q * 10000) : ℚ) := by
    exact_mod_cast le_trans h1 h2
  unfold round4
  linarith

theorem archetype_key_ne_empty {foundAll : List (String × List String)}
    {lp : String × List String}
    (hkeys : foundAll.map Prod.fst = ARCHETYPES.map Prod.fst) (hmem : lp ∈ foundAll) :
    lp.1 ≠ "" := by
  have h1 : lp.1 ∈ foundAll.map Prod.fst := List.mem_map_of_mem _ hmem
  rw [hkeys] at h1
  simp only [ARCHETYPES, List.map_cons, List.map_nil, List.mem_cons,
    List.not_mem_nil, or_false] at h1
  rcases h1 with h | h | h <;> rw [h] <;> decide

theorem foundAll_ne_nil {foundAll : List (String × List String)}
    (hkeys : foundAll.map Prod.fst = ARCHETYPES.map Prod.fst) : foundAll ≠ [] := by
  intro h
  rw [h] at hkeys
  exact absurd hkeys (by decide)

/-! ## Claim theorems -/

/-- C1: the decision engine replaces the classifier argmax `top` with the
lexically best archetype `lexLabel` if and only if `lexLabel` has at least 2
matches, beats `top`'s match count by at least 2 or the classifier confidence
is below 0.55, and `lexLabel` differs from `top`; whenever the best lexical
match count is below 2 the final label is the classifier argmax. -/
theorem override_characterization
    (labels : List String) (probs : List ℚ) (foundAll : List (String × List String))
    (hne : labels ≠ []) (hlen : probs.length = labels.length)
    (hkeys : foundAll.map Prod.fst = ARCHETYPES.map Prod.fst) :
    ∃ tp lp r,
      pyMaxBy (fun kv => kv.2) (labels.zip probs) = some tp ∧
      pyMaxBy (fun kv => kv.2.length) foundAll = some lp ∧
      classifyWith labels probs foundAll = some r ∧
      ((2 ≤ lp.2.length ∧
          (lexHits foundAll tp.1 + 2 ≤ lp.2.length ∨
            scoreOf (labels.zip probs) tp.1 < 55/100) ∧ lp.1 ≠ tp.1) ↔
        (r.label = lp.1 ∧ lp.1 ≠ tp.1)) ∧
      (¬ (2 ≤ lp.2.length ∧
          (lexHits foundAll tp.1 + 2 ≤ lp.2.length ∨
            scoreOf (labels.zip probs) tp.1 < 55/100) ∧ lp.1 ≠ tp.1) → r.label = tp.1) ∧
      (lp.2.length < 2 → r.label = tp.1) := by
  obtain ⟨tp, htp, -⟩ :=
    pyMaxBy_eq_some (fun kv => kv.2) _ (zip_ne_nil_of labels probs hne hlen)
  obtain ⟨lp, hlp, hlpmem⟩ :=
    pyMaxBy_eq_some (fun kv => kv.2.length) _ (foundAll_ne_nil hkeys)
  have hlpne : lp.1 ≠ "" := archetype_key_ne_empty hkeys hlpmem
  have hd := decideOverride_unfold (labels.zip probs) foundAll tp.1
    (scoreOf (labels.zip probs) tp.1) lp hlp
  refine ⟨tp, lp, _, htp, hlp, classifyWith_unfold labels probs foundAll tp htp, ?_, ?_, ?_⟩
  · by_cases hC : 2 ≤ lp.2.length ∧
        (lexHits foundAll tp.1 + 2 ≤ lp.2.length ∨
          scoreOf (labels.zip probs) tp.1 < 55/100) ∧ lp.1 ≠ tp.1
    · rw [if_pos ⟨hlpne, hC.2.2, hC.1, hC.2.1⟩] at hd
      simp only [hd]
      tauto
    · have hC' : ¬ (lp.1 ≠ "" ∧ lp.1 ≠ tp.1 ∧ 2 ≤ lp.2.length ∧
          (lexHits foundAll tp.1 + 2 ≤ lp.2.length ∨
            scoreOf (labels.zip probs) tp.1 < 55/100)) := by tauto
      rw [if_neg hC'] at hd
      simp only [hd]
      constructor
      · intro h
        exact absurd h hC
      · rintro ⟨h1, h2⟩
        exact absurd h1.symm h2
  · intro hC
    have hC' : ¬ (lp.1 ≠ "" ∧ lp.1 ≠ tp.1 ∧ 2 ≤ lp.2.length ∧
        (lexHits foundAll tp.1 + 2 ≤ lp.2.length ∨
          scoreOf (labels.zip probs) tp.1 < 55/100)) := by tauto
    rw [if_neg hC'] at hd
    simp only [hd]
  · intro hlt
    have hC' : ¬ (lp.1 ≠ "" ∧ lp.1 ≠ tp.1 ∧ 2 ≤ lp.2.length ∧
        (lexHits foundAll tp.1 + 2 ≤ lp.2.length ∨
          scoreOf (labels.zip probs) tp.1 < 55/100)) := by
      rintro ⟨-, -, h2, -⟩
      omega
    rw [if_neg hC'] at hd
    simp only [hd]

theorem override_characterization_witness :
    ∃ tp lp r,
      pyMaxBy (fun kv => kv.2)
        (["Rebel", "Caregiver", "Explorer"].zip ([2/5, 7/20, 1/4] : List ℚ)) = some tp ∧
      pyMaxBy (fun kv => kv.2.length)
        [("Rebel", []), ("Caregiver", ["care", "support", "protect"]), ("Explorer", [])] =
        some lp ∧
      classifyWith ["Rebel", "Caregiver", "Explorer"] ([2/5, 7/20, 1/4] : List ℚ)
        [("Rebel", []), ("Caregiver", ["care", "support", "protect"]), ("Explorer", [])] =
        some r ∧
      ((2 ≤ lp.2.length ∧
          (lexHits [("Rebel", []), ("Caregiver", ["care", "support", "protect"]),
              ("Explorer", [])] tp.1 + 2 ≤ lp.2.length ∨
            scoreOf (["Rebel", "Caregiver", "Explorer"].zip ([2/5, 7/20, 1/4] : List ℚ)) tp.1 < 55/100) ∧
          lp.1 ≠ tp.1) ↔
        (r.label = lp.1 ∧ lp.1 ≠ tp.1)) ∧
      (¬ (2 ≤ lp.2.length ∧
          (lexHits [("Rebel", []), ("Caregiver", ["care", "support", "protect"]),
              ("Explorer", [])] tp.1 + 2 ≤ lp.2.length ∨
            scoreOf (["Rebel", "Caregiver", "Explorer"].zip ([2/5, 7/20, 1/4] : List ℚ)) tp.1 < 55/100) ∧
          lp.1 ≠ tp.1) → r.label = tp.1) ∧
      (lp.2.length < 2 → r.label = tp.1) :=
  override_characterization ["Rebel", "Caregiver", "Explorer"] ([2/5, 7/20, 1/4] : List ℚ)
    [("Rebel", []), ("Caregiver", ["care", "support", "protect"]), ("Explorer", [])]
    (by decide) (by decide) (by decide)

theorem scoreOf_nonneg (labels : List String) (probs : List ℚ)
    (hprob : ∀ q ∈ probs, 0 ≤ q) (k : String) : 0 ≤ scoreOf (labels.zip probs) k := by
  unfold scoreOf
  cases hl : (labels.zip probs).lookup k with
  | none => simp
  | some v =>
    simp only [Option.getD_some]
    rw [List.lookup_eq_some_iff] at hl
    obtain ⟨l1, l2, heq, -⟩ := hl
    have hv : ((k, v) : String × ℚ) ∈ labels.zip probs := by
      rw [heq]
      simp
    exact hprob v (List.of_mem_zip hv).2

/-- C2: when the override fires the reported confidence is
`round4 (0.52 + 0.48 * classifierScore[lexLabel])`, hence at least 0.52;
otherwise it is the argmax probability rounded to 4 decimal places. -/
theorem blended_confidence
    (labels : List String) (probs : List ℚ) (foundAll : List (String × List String))
    (hne : labels ≠ []) (hlen : probs.length = labels.length)
    (hprob : ∀ q ∈ probs, 0 ≤ q ∧ q ≤ 1)
    (hkeys : foundAll.map Prod.fst = ARCHETYPES.map Prod.fst) :
    ∃ tp lp r,
      pyMaxBy (fun kv => kv.2) (labels.zip probs) = some tp ∧
      pyMaxBy (fun kv => kv.2.length) foundAll = some lp ∧
      classifyWith labels probs foundAll = some r ∧
      ((lp.1 ≠ tp.1 ∧ 2 ≤ lp.2.length ∧
          (lexHits foundAll tp.1 + 2 ≤ lp.2.length ∨
            scoreOf (labels.zip probs) tp.1 < 55/100)) →
        (r.confidence = round4 (52/100 + 48/100 * scoreOf (labels.zip probs) lp.1) ∧
          52/100 ≤ r.confidence)) ∧
      (¬ (lp.1 ≠ tp.1 ∧ 2 ≤ lp.2.length ∧
          (lexHits foundAll tp.1 + 2 ≤ lp.2.length ∨
            scoreOf (labels.zip probs) tp.1 < 55/100)) →
        r.confidence = round4 (scoreOf (labels.zip probs) tp.1)) := by
  obtain ⟨tp, htp, -⟩ :=
    pyMaxBy_eq_some (fun kv => kv.2) _ (zip_ne_nil_of labels probs hne hlen)
  obtain ⟨lp, hlp, hlpmem⟩ :=
    pyMaxBy_eq_some (fun kv => kv.2.length) _ (foundAll_ne_nil hkeys)
  have hlpne : lp.1 ≠ "" := archetype_key_ne_empty hkeys hlpmem
  have hd := decideOverride_unfold (labels.zip probs) foundAll tp.1
    (scoreOf (labels.zip probs) tp.1) lp hlp
  refine ⟨tp, lp, _, htp, hlp, classifyWith_unfold labels probs foundAll tp htp, ?_, ?_⟩
  · rintro ⟨h1, h2, h3⟩
    rw [if_pos ⟨hlpne, h1, h2, h3⟩] at hd
    simp only [hd]
    have hblend : 52/100 ≤ 52/100 + 48/100 * scoreOf (labels.zip probs) lp.1 := by
      have := scoreOf_nonneg labels probs (fun q hq => (hprob q hq).1) lp.1
      linarith
    refine ⟨round4_idem _, ?_⟩
    rw [round4_idem]
    exact round4_ge_of_ge hblend
  · intro hC
    have hC' : ¬ (lp.1 ≠ "" ∧ lp.1 ≠ tp.1 ∧ 2 ≤ lp.2.length ∧
        (lexHits foundAll tp.1 + 2 ≤ lp.2.length ∨
          scoreOf (labels.zip probs) tp.1 < 55/100)) := by tauto
    rw [if_neg hC'] at hd
    simp only [hd]

theorem blended_confidence_witness :
    ∃ tp lp r,
      pyMaxBy (fun kv => kv.2)
        (["Rebel", "Caregiver", "Explorer"].zip ([2/5, 7/20, 1/4] : List ℚ)) = some tp ∧
      pyMaxBy (fun kv => kv.2.length)
        [("Rebel", []), ("Caregiver", ["care", "support", "family"]), ("Explorer", [])] =
        some lp ∧
      classifyWith ["Rebel", "Caregiver", "Explorer"] ([2/5, 7/20, 1/4] : List ℚ)
        [("Rebel", []), ("Caregiver", ["care", "support", "family"]), ("Explorer", [])] =
        some r ∧
      ((lp.1 ≠ tp.1 ∧ 2 ≤ lp.2.length ∧
          (lexHits [("Rebel", []), ("Caregiver", ["care", "support", "family"]),
              ("Explorer", [])] tp.1 + 2 ≤ lp.2.length ∨
            scoreOf (["Rebel", "Caregiver", "Explorer"].zip ([2/5, 7/20, 1/4] : List ℚ)) tp.1 <
              55/100)) →
        (r.confidence = round4 (52/100 + 48/100 *
            scoreOf (["Rebel", "Caregiver", "Explorer"].zip ([2/5, 7/20, 1/4] : List ℚ)) lp.1) ∧
          52/100 ≤ r.confidence)) ∧
      (¬ (lp.1 ≠ tp.1 ∧ 2 ≤ lp.2.length ∧
          (lexHits [("Rebel", []), ("Caregiver", ["care", "support", "family"]),
              ("Explorer", [])] tp.1 + 2 ≤ lp.2.length ∨
            scoreOf (["Rebel", "Caregiver", "Explorer"].zip ([2/5, 7/20, 1/4] : List ℚ)) tp.1 <
              55/100)) →
        r.confidence = round4
          (scoreOf (["Rebel", "Caregiver", "Explorer"].zip ([2/5, 7/20, 1/4] : List ℚ)) tp.1)) :=
  blended_confidence ["Rebel", "Caregiver", "Explorer"] ([2/5, 7/20, 1/4] : List ℚ)
    [("Rebel", []), ("Caregiver", ["care", "support", "family"]), ("Explorer", [])]
    (by decide) (by decide) (by norm_num) (by decide)

theorem analyze_patterns_all_keys (t : String) :
    (analyze_patterns_all t).map Prod.fst = ARCHETYPES.map Prod.fst := rfl

theorem lookup_eq_none_of_not_mem_keys {β : Type} (l : List (String × β)) (k : String)
    (h : k ∉ l.map Prod.fst) : l.lookup k = none := by
  rw [List.lookup_eq_none_iff]
  intro p hp
  simp only [bne_iff_ne, ne_eq]
  intro hk
  exact h (hk ▸ List.mem_map_of_mem Prod.fst hp)

/-- C3, counterexample: a score mapping containing the label `Mystic`, which
is not an archetype name in the lexicon registry, is processed without any
failure — `classify` returns a normal decision (even labelled `Mystic`)
instead of failing with a `SchemaMismatch` condition. -/
theorem schema_mismatch_counterexample :
    (classify ["Rebel", "Caregiver", "Explorer", "Mystic"]
        ([0, 0, 0, 1] : List ℚ) ("")).map ClassifyOut.label =
      some ("Mystic") ∧
    ("Mystic") ∉ ARCHETYPES.map Prod.fst := by
  constructor
  · rfl
  · decide

/-- C3, amended: the decision engine performs no label-set validation at all.
For every classifier score mapping it proceeds normally; an unknown label is
silently handled through defaulting lookups, so if it becomes the final label
the matched and missing keyword lists are simply empty. -/
theorem no_schema_validation
    (labels : List String) (probs : List ℚ) (rawText : String)
    (hne : labels ≠ []) (hlen : probs.length = labels.length) :
    ∃ r, classify labels probs rawText = some r ∧
      (r.label ∉ ARCHETYPES.map Prod.fst →
        r.patterns_found = [] ∧ r.patterns_missing = []) := by
  obtain ⟨tp, htp, -⟩ :=
    pyMaxBy_eq_some (fun kv => kv.2) _ (zip_ne_nil_of labels probs hne hlen)
  refine ⟨_, classifyWith_unfold labels probs
    (analyze_patterns_all (normalize_text rawText)) tp htp, ?_⟩
  intro hnot
  simp only at hnot ⊢
  have hfound : foundFor (analyze_patterns_all (normalize_text rawText))
      (decideOverride ((labels.zip probs)) (analyze_patterns_all (normalize_text rawText))
        tp.1 (scoreOf (labels.zip probs) tp.1)).1 = [] := by
    unfold foundFor
    rw [lookup_eq_none_of_not_mem_keys]
    · rfl
    · rw [analyze_patterns_all_keys]
      exact hnot
  have hlex : lexFor (decideOverride ((labels.zip probs))
      (analyze_patterns_all (normalize_text rawText)) tp.1
        (scoreOf (labels.zip probs) tp.1)).1 = {} := by
    unfold lexFor
    rw [lookup_eq_none_of_not_mem_keys]
    · rfl
    · exact hnot
  rw [hfound, hlex]
  exact ⟨rfl, rfl⟩

theorem no_schema_validation_witness :
    ∃ r, classify ["Rebel", "Caregiver", "Explorer", "Mystic"]
        ([1/10, 2/10, 3/10, 4/10] : List ℚ) ("care") = some r ∧
      (r.label ∉ ARCHETYPES.map Prod.fst →
        r.patterns_found = [] ∧ r.patterns_missing = []) :=
  no_schema_validation ["Rebel", "Caregiver", "Explorer", "Mystic"]
    ([1/10, 2/10, 3/10, 4/10] : List ℚ) ("care") (by decide) (by decide)

/-- C4: a keyword is matched iff its match-normalized form is an exact member
of the 1-3-token n-gram set of the match-normalized text; in particular
"careful development" matches nothing (not the keyword "care"), while both
"well-being" and "well being" match the keyword "well-being". -/
theorem matcher_boundary :
    (∀ text : String, analyze_patterns_all text =
      ARCHETYPES.map (fun p =>
        (p.1, (p.2.keywords.filter
          (fun kw => decide (norm_for_match kw ∈ ngram_set (norm_for_match text)))).map
          pyLower))) ∧
    analyze_patterns_all ("careful development") =
      [("Rebel", []), ("Caregiver", []), ("Explorer", [])] ∧
    ("well-being") ∈ foundFor (analyze_patterns_all ("well-being")) ("Caregiver") ∧
    ("well-being") ∈ foundFor (analyze_patterns_all ("well being")) ("Caregiver") :=
  ⟨fun _ => rfl, by decide, by decide, by decide⟩

theorem sorted_pySortDescEnum (l : List (String × ℚ)) :
    List.Sorted descRel ((l.enum).insertionSort descRel) :=
  List.sorted_insertionSort descRel _

theorem pairwise_fst_ne_sorted (l : List (String × ℚ)) :
    List.Pairwise (fun a b => a.1 ≠ b.1) ((l.enum).insertionSort descRel) := by
  have h1 : ((l.enum).map Prod.fst).Nodup := by
    rw [List.enum_map_fst]
    exact List.nodup_range _
  have hperm : List.Perm ((l.enum).insertionSort descRel) l.enum :=
    List.perm_insertionSort _ _
  have h2 : (((l.enum).insertionSort descRel).map Prod.fst).Nodup :=
    ((hperm.map Prod.fst).nodup_iff).mpr h1
  exact List.pairwise_map.mp h2

/-- On the sorted enumerated score list every pair is strictly ordered:
either by a strictly larger value or, on exactly equal values, by a strictly
smaller original label position. -/
theorem sorted_strict (l : List (String × ℚ)) :
    List.Pairwise (fun a b => b.2.2 < a.2.2 ∨ (a.2.2 = b.2.2 ∧ a.1 < b.1))
      ((l.enum).insertionSort descRel) := by
  have h := (sorted_pySortDescEnum l).and (pairwise_fst_ne_sorted l)
  refine h.imp ?_
  rintro a b ⟨hab, hne⟩
  rcases hab with h1 | ⟨h1, h1'⟩
  · exact Or.inl h1
  · refine Or.inr ⟨h1, lt_of_le_of_ne h1' ?_⟩
    intro hfst
    exact hne hfst

/-- C5: `top3` holds `min 3 #labels` entries, its values are the classifier
scores rounded to 4 decimal places in non-increasing order, and the
underlying sort is strictly ordered by (score desc, declared label position
asc) — i.e., ties are broken by the classifier's declared label order. -/
theorem top3_integrity
    (labels : List String) (probs : List ℚ) (foundAll : List (String × List String))
    (hne : labels ≠ []) (hlen : probs.length = labels.length) :
    ∃ r, classifyWith labels probs foundAll = some r ∧
      r.scores = ((pySortDesc (labels.zip probs)).take 3).map (fun kv => (kv.1, round4 kv.2)) ∧
      r.scores.length = min 3 labels.length ∧
      r.scores.Pairwise (fun x y => y.2 ≤ x.2) ∧
      (((labels.zip probs).enum.insertionSort descRel).take 3).Pairwise
        (fun a b => b.2.2 < a.2.2 ∨ (a.2.2 = b.2.2 ∧ a.1 < b.1)) := by
  obtain ⟨tp, htp, -⟩ :=
    pyMaxBy_eq_some (fun kv => kv.2) _ (zip_ne_nil_of labels probs hne hlen)
  refine ⟨_, classifyWith_unfold labels probs foundAll tp htp, rfl, ?_, ?_, ?_⟩
  · simp only [List.length_map, List.length_take, pySortDesc,
      List.length_insertionSort, List.enum_length, List.length_zip, hlen, Nat.min_self]
  · have hs := (sorted_strict (labels.zip probs)).take (n := 3)
    unfold pySortDesc
    rw [← List.map_take, List.map_map]
    refine List.pairwise_map.mpr (hs.imp ?_)
    rintro a b (h1 | ⟨h1, -⟩)
    · exact round4_mono (le_of_lt h1)
    · simp only [Function.comp_apply]
      exact le_of_eq (by rw [h1])
  · exact (sorted_strict (labels.zip probs)).take

theorem top3_integrity_witness :
    ∃ r, classifyWith ["Rebel", "Caregiver", "Explorer"] ([0, 1, 1] : List ℚ)
        [("Rebel", []), ("Caregiver", []), ("Explorer", [])] = some r ∧
      r.scores = ((pySortDesc (["Rebel", "Caregiver", "Explorer"].zip
        ([0, 1, 1] : List ℚ))).take 3).map (fun kv => (kv.1, round4 kv.2)) ∧
      r.scores.length = min 3 (["Rebel", "Caregiver", "Explorer"] : List String).length ∧
      r.scores.Pairwise (fun x y => y.2 ≤ x.2) ∧
      (((["Rebel", "Caregiver", "Explorer"].zip
          ([0, 1, 1] : List ℚ)).enum.insertionSort descRel).take 3).Pairwise
        (fun a b => b.2.2 < a.2.2 ∨ (a.2.2 = b.2.2 ∧ a.1 < b.1)) :=
  top3_integrity ["Rebel", "Caregiver", "Explorer"] ([0, 1, 1] : List ℚ)
    [("Rebel", []), ("Caregiver", []), ("Explorer", [])] (by decide) (by decide)

/-- C6: `missingKeywords` is the final label's lower-cased keyword list minus
the matched keywords, truncated to the first 10 in declaration order, so it
never exceeds 10 entries and is disjoint from `matchedKeywords`.
First over `classifyWith` with an arbitrary match result, then specialised to
the full pipeline. -/
theorem disjoint_of_take_filter {miss found kws : List String}
    (h : miss = (kws.filter (fun w => decide (w ∉ found))).take 10) :
    miss.length ≤ 10 ∧ ∀ w ∈ miss, w ∉ found := by
  subst h
  refine ⟨List.length_take_le _ _, ?_⟩
  intro w hw
  have hw1 : w ∈ kws.filter (fun w => decide (w ∉ found)) := List.mem_of_mem_take hw
  have hw2 := (List.mem_filter.mp hw1).2
  exact of_decide_eq_true hw2

theorem classifyWith_missing_bound
    (labels : List String) (probs : List ℚ) (foundAll : List (String × List String))
    (hne : labels ≠ []) (hlen : probs.length = labels.length) :
    ∃ r, classifyWith labels probs foundAll = some r ∧
      r.patterns_missing =
        (((lexFor r.label).keywords.map pyLower).filter
          (fun w => decide (w ∉ r.patterns_found))).take 10 ∧
      r.patterns_missing.length ≤ 10 ∧
      ∀ w ∈ r.patterns_missing, w ∉ r.patterns_found := by
  obtain ⟨tp, htp, -⟩ :=
    pyMaxBy_eq_some (fun kv => kv.2) _ (zip_ne_nil_of labels probs hne hlen)
  exact ⟨_, classifyWith_unfold labels probs foundAll tp htp, rfl,
    (disjoint_of_take_filter rfl).1, (disjoint_of_take_filter rfl).2⟩

/-- C6, specialised to the full request pipeline. -/
theorem missing_keywords_bound
    (labels : List String) (probs : List ℚ) (rawText : String)
    (hne : labels ≠ []) (hlen : probs.length = labels.length) :
    ∃ r, classify labels probs rawText = some r ∧
      r.patterns_missing =
        (((lexFor r.label).keywords.map pyLower).filter
          (fun w => decide (w ∉ r.patterns_found))).take 10 ∧
      r.patterns_missing.length ≤ 10 ∧
      ∀ w ∈ r.patterns_missing, w ∉ r.patterns_found :=
  classifyWith_missing_bound labels probs
    (analyze_patterns_all (normalize_text rawText)) hne hlen

theorem missing_keywords_bound_witness :
    ∃ r, classify ["Rebel", "Caregiver", "Explorer"] ([1, 0, 0] : List ℚ)
        ("we care and protect your family") = some r ∧
      r.patterns_missing =
        (((lexFor r.label).keywords.map pyLower).filter
          (fun w => decide (w ∉ r.patterns_found))).take 10 ∧
      r.patterns_missing.length ≤ 10 ∧
      ∀ w ∈ r.patterns_missing, w ∉ r.patterns_found :=
  missing_keywords_bound ["Rebel", "Caregiver", "Explorer"] ([1, 0, 0] : List ℚ)
    ("we care and protect your family") (by decide) (by decide)

/-- C7: text that match-normalizes to the empty string produces zero matches
for every archetype (no error is raised: the result is still `some`), and the
final label is still the classifier argmax — the classifier is consulted as
usual, the matcher simply contributes nothing. -/
theorem empty_text_behavior
    (labels : List String) (probs : List ℚ) (rawText : String)
    (hne : labels ≠ []) (hlen : probs.length = labels.length)
    (h0 : norm_for_match (normalize_text rawText) = "") :
    analyze_patterns_all (normalize_text rawText) = ARCHETYPES.map (fun p => (p.1, [])) ∧
    ∃ tp r, pyMaxBy (fun kv => kv.2) (labels.zip probs) = some tp ∧
      classify labels probs rawText = some r ∧ r.label = tp.1 := by
  have hana : analyze_patterns_all (normalize_text rawText) =
      ARCHETYPES.map (fun p => (p.1, [])) := by
    simp only [analyze_patterns_all, h0]
    rfl
  refine ⟨hana, ?_⟩
  have hcl : classify labels probs rawText =
      classifyWith labels probs (ARCHETYPES.map (fun p => (p.1, []))) := by
    unfold classify
    rw [hana]
  obtain ⟨tp, htp, -⟩ :=
    pyMaxBy_eq_some (fun kv => kv.2) _ (zip_ne_nil_of labels probs hne hlen)
  have hclass := classifyWith_unfold labels probs
    (ARCHETYPES.map (fun p => (p.1, []))) tp htp
  refine ⟨tp, _, htp, hcl.trans hclass, ?_⟩
  have hlp : pyMaxBy (fun kv => (kv.2 : List String).length)
      (ARCHETYPES.map (fun p => (p.1, []))) = some ("Rebel", []) := rfl
  have hd := decideOverride_unfold (labels.zip probs) (ARCHETYPES.map (fun p => (p.1, [])))
    tp.1 (scoreOf (labels.zip probs) tp.1) ("Rebel", []) hlp
  rw [if_neg] at hd
  · simp only [hd]
  · rintro ⟨-, -, h2, -⟩
    exact absurd h2 (by decide)

theorem empty_text_behavior_witness :
    analyze_patterns_all (normalize_text ("")) = ARCHETYPES.map (fun p => (p.1, [])) ∧
    ∃ tp r, pyMaxBy (fun kv => kv.2)
        (["Rebel", "Caregiver", "Explorer"].zip ([1, 0, 0] : List ℚ)) = some tp ∧
      classify ["Rebel", "Caregiver", "Explorer"] ([1, 0, 0] : List ℚ) ("") = some r ∧
      r.label = tp.1 :=
  empty_text_behavior ["Rebel", "Caregiver", "Explorer"] ([1, 0, 0] : List ℚ) ("")
    (by decide) (by decide) (by decide)

/-- C8: for a fixed lexicon and fixed classifier scores the decision fields
(`label`, `confidence`, `scores`/top3, `patterns_found`, `patterns_missing`)
do not depend on the random source: the only nondeterminism in the response
is the `example_rewrite` field, modelled by the `render` argument. -/
theorem classify_deterministic (labels : List String) (probs : List ℚ) (rawText : String)
    (render1 render2 : Lexicon → String → String) :
    (classifyResponse render1 labels probs rawText).map Prod.fst =
      (classifyResponse render2 labels probs rawText).map Prod.fst := by
  unfold classifyResponse
  cases classify labels probs rawText <;> rfl

/-- C9: `rewrite` never fails on an unknown archetype — it falls back to the
display-normalized text (for an unknown archetype there are no replacements
to apply), unchanged when at most 120 characters and truncated to 120
characters plus an ellipsis otherwise; an in-registry archetype with an empty
template list would behave the same after its word replacements. -/
theorem rewrite_fallback
    (render : Lexicon → String → String) (text target brand : String) :
    (ARCHETYPES.lookup target = none →
      rewrite render text target brand =
        (if (normalize_text text).length > 120 then (normalize_text text).take 120 ++ "..."
         else normalize_text text)) ∧
    (∀ lex, ARCHETYPES.lookup target = some lex → lex.templates = [] →
      rewrite render text target brand =
        (if (normalize_text (applyReplace text lex.replace)).length > 120 then
          (normalize_text (applyReplace text lex.replace)).take 120 ++ "..."
         else normalize_text (applyReplace text lex.replace))) := by
  constructor
  · intro hnone
    unfold rewrite
    rw [hnone]
    rfl
  · intro lex hsome htempl
    unfold rewrite
    rw [hsome]
    simp only [Option.getD_some, htempl, List.isEmpty_nil, if_true]

theorem rewrite_fallback_witness :
    rewrite (fun _ _ => "ignored") ("Hello world") ("Mystic") ("Brand") =
      (if (normalize_text ("Hello world")).length > 120 then
        (normalize_text ("Hello world")).take 120 ++ "..."
       else normalize_text ("Hello world")) :=
  (rewrite_fallback (fun _ _ => "ignored") ("Hello world") ("Mystic") ("Brand")).1 (by decide)

theorem reverse_tok_ok {acc : List Char} (he : ¬ acc.isEmpty = true)
    (hacc : ∀ c ∈ acc, notWs c = true) :
    acc.reverse ≠ [] ∧ ∀ c ∈ acc.reverse, notWs c = true := by
  constructor
  · intro habs
    rw [List.reverse_eq_nil_iff] at habs
    subst habs
    exact he rfl
  · intro c hc
    exact hacc c (List.mem_reverse.mp hc)

/-- Every token produced by the whitespace splitter is nonempty and contains
no whitespace character. -/
theorem pySplitAux_tokens (l : List Char) :
    ∀ (acc : List Char), (∀ c ∈ acc, notWs c = true) →
      ∀ t ∈ pySplitAux l acc, t ≠ [] ∧ ∀ c ∈ t, notWs c = true := by
  induction l with
  | nil =>
    intro acc hacc t ht
    unfold pySplitAux at ht
    by_cases he : acc.isEmpty
    · rw [if_pos he] at ht
      exact absurd ht (List.not_mem_nil t)
    · rw [if_neg he] at ht
      rw [List.mem_singleton] at ht
      subst ht
      exact reverse_tok_ok he hacc
  | cons c cs ih =>
    intro acc hacc t ht
    unfold pySplitAux at ht
    by_cases hws : isWs c
    · rw [if_pos hws] at ht
      by_cases he : acc.isEmpty
      · rw [if_pos he] at ht
        exact ih [] (by simp) t ht
      · rw [if_neg he] at ht
        rcases List.mem_cons.mp ht with rfl | ht2
        · exact reverse_tok_ok he hacc
        · exact ih [] (by simp) t ht2
    · rw [if_neg hws] at ht
      refine ih (c :: acc) ?_ t ht
      intro c' hc'
      rcases List.mem_cons.mp hc' with rfl | h2
      · rw [Bool.not_eq_true] at hws
        simp [notWs, hws]
      · exact hacc c' h2

theorem pySplit_no_space (l : List Char) : ∀ t ∈ pySplit l, (' ') ∉ t := by
  intro t ht hsp
  have h := (pySplitAux_tokens l [] (by simp) t ht).2 ' ' hsp
  exact absurd h (by decide)

/-- Joining `k` space-free tokens with single spaces yields exactly `k - 1`
space characters. -/
theorem count_space_joinSp (ts : List (List Char)) (h : ∀ t ∈ ts, (' ') ∉ t)
    (hne : ts ≠ []) : (joinSp ts).count ' ' + 1 = ts.length := by
  induction ts with
  | nil => exact absurd rfl hne
  | cons t ts ih =>
    cases ts with
    | nil =>
      show (joinSp [t]).count ' ' + 1 = 1
      rw [show joinSp [t] = t from rfl]
      rw [List.count_eq_zero.mpr (h t (by simp))]
    | cons t2 ts2 =>
      rw [show joinSp (t :: t2 :: ts2) = t ++ ' ' :: joinSp (t2 :: ts2) from rfl]
      rw [List.count_append, List.count_cons_self]
      have ih2 := ih (fun x hx => h x (List.mem_cons_of_mem _ hx)) (by simp)
      rw [List.count_eq_zero.mpr (h t (by simp))]
      simp only [List.length_cons] at ih2 ⊢
      omega

/-- Every member of the 1-3-gram set contains at most 2 space characters. -/
theorem ngram_count_space {g text : String} (hg : g ∈ ngram_set text) :
    g.toList.count ' ' ≤ 2 := by
  have hwin : ∀ (n i : Nat), n ≤ 3 →
      (String.mk (joinSp ((pySplit text.toList).drop i |>.take n))).toList.count ' ' ≤ 2 := by
    intro n i hn
    set w := (pySplit text.toList).drop i |>.take n with hw
    by_cases hwe : w = []
    · rw [hwe]
      exact Nat.le_of_lt (by decide)
    · have hns : ∀ t ∈ w, (' ') ∉ t := by
        intro t ht
        refine pySplit_no_space text.toList t ?_
        exact List.drop_subset _ _ (List.take_subset _ _ ht)
      have h1 := count_space_joinSp w hns hwe
      have h2 : w.length ≤ n := by
        rw [hw, List.length_take]
        exact Nat.min_le_left _ _
      have h3 : (String.mk (joinSp w)).toList = joinSp w := rfl
      rw [h3]
      omega
  unfold ngram_set at hg
  simp only [List.mem_append] at hg
  rcases hg with (h | h) | h <;>
    obtain ⟨i, -, rfl⟩ := List.mem_map.mp h
  · exact hwin 1 i (by decide)
  · exact hwin 2 i (by decide)
  · exact hwin 3 i (by decide)

/-- A keyword whose match-normalized form contains at least 3 spaces (i.e. at
least 4 tokens) is never a member of any n-gram set. -/
theorem many_space_not_in_ngram (kw text : String)
    (h : 3 ≤ (norm_for_match kw).toList.count ' ') :
    norm_for_match kw ∉ ngram_set text := by
  intro hmem
  have hb := ngram_count_space hmem
  omega

theorem lookup_mem_values {α β : Type} [BEq α] {l : List (α × β)} {k : α} {v : β}
    (h : l.lookup k = some v) : v ∈ l.map Prod.snd := by
  induction l with
  | nil => exact absurd h (by simp)
  | cons p l ih =>
    obtain ⟨k', v'⟩ := p
    rw [List.lookup_cons] at h
    cases hb : (k == k')
    · rw [hb] at h
      exact List.mem_cons_of_mem _ (ih h)
    · rw [hb] at h
      cases h
      exact List.mem_cons_self _ _

/-- Keyword lists where no entry lower-cases to `target` (or where the only
such entry is filtered out) produce no `target` hit. -/
theorem not_mem_lower_filter {kws : List String} {p : String → Bool} {target : String}
    (hno : ∀ kw ∈ kws, pyLower kw = target → p kw = false) :
    target ∉ (kws.filter p).map pyLower := by
  intro hmem
  obtain ⟨kw, hkw, hpy⟩ := List.mem_map.mp hmem
  obtain ⟨hmem2, hp⟩ := List.mem_filter.mp hkw
  rw [hno kw hmem2 hpy] at hp
  cases hp

/-- C10: a lexicon keyword whose match-normalized form has four or more
tokens (equivalently, at least 3 joining spaces) is never a member of the
n-gram set, which only holds windows of 1-3 tokens; in particular the
Explorer keyword "find your own way" (4 tokens) never appears in any
archetype's match result, hence never in `matchedKeywords`. -/
theorem four_token_keyword_never_matches :
    (∀ kw text : String, 3 ≤ (norm_for_match kw).toList.count ' ' →
      norm_for_match kw ∉ ngram_set text) ∧
    (pySplit (norm_for_match ("find your own way")).toList).length = 4 ∧
    (∀ text name : String,
      ("find your own way") ∉ foundFor (analyze_patterns_all text) name) := by
  refine ⟨many_space_not_in_ngram, by decide, ?_⟩
  intro text name hmem
  unfold foundFor at hmem
  cases hl : (analyze_patterns_all text).lookup name with
  | none =>
    rw [hl] at hmem
    exact absurd hmem (by simp)
  | some hits =>
    rw [hl] at hmem
    simp only [Option.getD_some] at hmem
    have hv := lookup_mem_values hl
    have hmap : (analyze_patterns_all text).map Prod.snd =
        [(REBEL.keywords.filter (fun kw =>
            decide (norm_for_match kw ∈ ngram_set (norm_for_match text)))).map pyLower,
         (CAREGIVER.keywords.filter (fun kw =>
            decide (norm_for_match kw ∈ ngram_set (norm_for_match text)))).map pyLower,
         (EXPLORER.keywords.filter (fun kw =>
            decide (norm_for_match kw ∈ ngram_set (norm_for_match text)))).map pyLower] := rfl
    rw [hmap] at hv
    simp only [List.mem_cons, List.not_mem_nil, or_false] at hv
    rcases hv with rfl | rfl | rfl
    · refine absurd hmem (not_mem_lower_filter ?_)
      intro kw hkw hpy
      have hall : REBEL.keywords.all
          (fun kw => pyLower kw != ("find your own way")) = true := by decide
      have h2 := (List.all_eq_true.mp hall) kw hkw
      exact absurd hpy (bne_iff_ne.mp h2)
    · refine absurd hmem (not_mem_lower_filter ?_)
      intro kw hkw hpy
      have hall : CAREGIVER.keywords.all
          (fun kw => pyLower kw != ("find your own way")) = true := by decide
      have h2 := (List.all_eq_true.mp hall) kw hkw
      exact absurd hpy (bne_iff_ne.mp h2)
    · refine absurd hmem (not_mem_lower_filter ?_)
      intro kw hkw hpy
      have hall : EXPLORER.keywords.all
          (fun kw => (pyLower kw != ("find your own way")) ||
            (kw == ("find your own way"))) = true := by decide
      have h2 := (List.all_eq_true.mp hall) kw hkw
      rcases Bool.or_eq_true_iff.mp h2 with h3 | h3
      · exact absurd hpy (bne_iff_ne.mp h3)
      · have hkweq : kw = "find your own way" := by
          exact beq_iff_eq.mp h3
        subst hkweq
        apply decide_eq_false
        exact many_space_not_in_ngram ("find your own way")
          (norm_for_match text) (by decide)

theorem four_token_keyword_never_matches_witness :
    norm_for_match ("find your own way") ∉ ngram_set ("find your own way explore") :=
  four_token_keyword_never_matches.1 ("find your own way")
    ("find your own way explore") (by decide)

end JungAI
